import Mathlib

/-!
Verification development for the distributed task-runner core
(scheduler, lease coordination, dependency gate, worker, storage layer).

The Go sources are shallowly embedded: pure record types become Lean
structures, stateful storage becomes explicit state passing on `StoreState`,
the nondeterminism of one execution (timestamps, the HTTP call's outcome,
injected storage-write failures) is captured in an `ExecEnv` record, and the
side effects of one fire (which storage calls were made, with which
arguments) are collected in an `ExecTrace` so that theorems can speak about
"CreateTaskResult was called exactly once" and similar properties.

Machine identifiers (UUIDs, cron entry ids) are modelled as `Nat`;
timestamps are `Nat` seconds; Go maps become association lists.
-/

namespace TaskRunner

/-- Status enum shared by Task and TaskResult
(`models/task.go`: pending, running, completed, failed). -/
inductive TaskStatus where
  | pending
  | running
  | completed
  | failed
deriving DecidableEq, Repr

/-- `models.TaskTypeHTTP = "http"` — task types are string tags in the source. -/
def taskTypeHTTP : String := "http"

/-- `models.HTTPTaskConfig`: configuration of an HTTP task
(url, method, headers map, optional body). -/
structure HTTPTaskConfig where
  url : String
  method : String
  headers : List (String × String)
  body : String
deriving DecidableEq, Repr

/-- `models.TaskConfig`: type-specific configuration variant; the HTTP branch
is a nullable pointer in Go, hence `Option` here. -/
structure TaskConfig where
  http : Option HTTPTaskConfig
deriving DecidableEq, Repr

/-- `models.Task` with pointers and slices resolved to values: the logical
content of a task definition as the scheduler core consumes it. -/
structure Task where
  id : Nat
  name : String
  type : String
  schedule : String
  status : TaskStatus
  createdAt : Nat
  updatedAt : Nat
  createdBy : String
  version : Nat
  dependencies : List Nat
  config : TaskConfig
deriving DecidableEq, Repr

/-- `models.TaskResult` as the scheduler manipulates it, including the
free-form metadata map the scheduler tags with the instance identity. -/
structure TaskResult where
  id : Nat
  taskId : Nat
  status : TaskStatus
  output : String
  error : String
  startTime : Nat
  endTime : Nat
  version : Nat
  metadata : List (String × String)
deriving DecidableEq, Repr

/-- The columns of one row of the `task_results` table, exactly the column
list of the INSERT in `PostgresStorage.CreateTaskResult`
(id, task_id, status, output, error, start_time, end_time, version). -/
structure TaskResultRow where
  id : Nat
  taskId : Nat
  status : TaskStatus
  output : String
  error : String
  startTime : Nat
  endTime : Nat
  version : Nat
deriving DecidableEq, Repr

/-- `PostgresStorage.CreateTaskResult`: the row actually written for a
result. The INSERT binds exactly the eight listed columns of the result;
no other field of the in-memory `TaskResult` reaches the database. -/
def CreateTaskResultRow (r : TaskResult) : TaskResultRow :=
  { id := r.id
    taskId := r.taskId
    status := r.status
    output := r.output
    error := r.error
    startTime := r.startTime
    endTime := r.endTime
    version := r.version }

/-- A lease row: implicit entity keyed by task-id holding the instance
identity and an expiry timestamp (spec §3 "Lease"). -/
structure Lease where
  taskId : Nat
  holder : String
  expiry : Nat
deriving DecidableEq, Repr

/-- The shared store's state: task rows, append-only result rows, and the
lease rows used for mutual exclusion. -/
structure StoreState where
  tasks : List Task
  results : List TaskResult
  leases : List Lease
deriving DecidableEq, Repr

/-- Insert a result into a list sorted by start time descending
(newest first), keeping earlier-inserted equal keys in place. -/
def insertByStartDesc (r : TaskResult) : List TaskResult → List TaskResult
  | [] => [r]
  | x :: xs =>
    if x.startTime < r.startTime then r :: x :: xs
    else x :: insertByStartDesc r xs

/-- Sort results by start time, newest first. -/
def sortByStartDesc (rs : List TaskResult) : List TaskResult :=
  rs.foldr insertByStartDesc []

/-- `PostgresStorage.ListTaskResults`: the results of one task,
`ORDER BY start_time DESC` (newest first). -/
def ListTaskResults (st : StoreState) (taskId : Nat) : List TaskResult :=
  sortByStartDesc (st.results.filter (fun r => r.taskId = taskId))

/-- `PostgresStorage.CreateTaskResult`'s effect on the store: append the
(projected) result row. The full in-memory result is kept in the model
state so that theorems can compare it with its persisted projection. -/
def AddResult (st : StoreState) (r : TaskResult) : StoreState :=
  { st with results := st.results ++ [r] }

/-- `PostgresStorage.UpdateTask`'s effect on the store: replace the row
whose id matches. -/
def UpdateTaskInStore (st : StoreState) (t : Task) : StoreState :=
  { st with tasks := st.tasks.map (fun u => if u.id = t.id then t else u) }

/-! ## Lease coordinator

`TryLockTask`, `RefreshLock` and `ReleaseLock` are consumed by
`scheduler.executeTask` through the storage interface, but their
implementation is not among the sources; they are modelled from the
specification's Lease Coordinator contract (§4.2) and Task Store
contract (§6). -/

/-- Modelled from the spec: leases carry "a short default expiry (tens of
seconds)"; the concrete duration is not in the available sources. -/
def leaseDurationSeconds : Nat := 30

/-- Does an unexpired (at time `now`) lease for `taskId` exist? -/
def hasUnexpiredLease (st : StoreState) (now taskId : Nat) : Bool :=
  st.leases.any (fun l => l.taskId = taskId && now < l.expiry)

/-- Modelled from the spec: `try_lock_task(task_id, instance_id) -> bool`.
"Succeeds (returns held=true) iff no unexpired lease exists for the
task-id, atomically creating one with a short default expiry; otherwise
returns held=false with no error." Creation replaces any expired row for
the same task-id ("insert lease row if absent" upsert semantics). -/
def TryLockTask (st : StoreState) (now taskId : Nat) (inst : String) :
    Bool × StoreState :=
  if hasUnexpiredLease st now taskId then (false, st)
  else
    (true,
     { st with leases :=
        { taskId := taskId, holder := inst, expiry := now + leaseDurationSeconds } ::
          st.leases.filter (fun l => l.taskId ≠ taskId) })

/-- Modelled from the spec: `refresh_lock(task_id, instance_id)`.
"Extends the expiry of a lease currently held by the calling instance;
fails if the lease was lost (expired and reclaimed by another instance,
or never acquired)." Returns `true` on success. -/
def RefreshLock (st : StoreState) (now taskId : Nat) (inst : String) :
    Bool × StoreState :=
  if st.leases.any (fun l => l.taskId = taskId && l.holder = inst && now < l.expiry) then
    (true,
     { st with leases := st.leases.map (fun l =>
        if l.taskId = taskId && l.holder = inst then
          { l with expiry := now + leaseDurationSeconds }
        else l) })
  else (false, st)

/-- Modelled from the spec: `release_lock(task_id, instance_id)`.
"Deletes the lease if held by the calling instance; idempotent, never
errors on a lease that no longer exists." -/
def ReleaseLock (st : StoreState) (taskId : Nat) (inst : String) : StoreState :=
  { st with leases := st.leases.filter (fun l => ¬(l.taskId = taskId ∧ l.holder = inst)) }

/-- Number of lease rows stored for one task-id. -/
def leaseRowsFor (st : StoreState) (taskId : Nat) : Nat :=
  (st.leases.filter (fun l => l.taskId = taskId)).length

/-- Number of unexpired (at time `now`) lease rows for one task-id. -/
def unexpiredLeasesFor (st : StoreState) (now taskId : Nat) : Nat :=
  (st.leases.filter (fun l => l.taskId = taskId && now < l.expiry)).length

/-! ## Worker (`worker.ExecuteTask`, `worker.executeHTTPTask`) -/

/-- The per-execution timeout: both `executeTask` and `ExecuteTaskNow`
derive their context with `context.WithTimeout(..., 30*time.Second)`. -/
def taskTimeoutSeconds : Nat := 30

/-- The text of `ctx.Err()` when a `context.WithTimeout` deadline fires. -/
def contextDeadlineExceededMsg : String := "context deadline exceeded"

/-- The nondeterministic inputs of one execution: fresh result id, wall
clock at start and end, how long the executor goroutine runs (`none` =
never returns), the outcome of the HTTP request/decode, and injected
failures of the two storage writes. -/
structure ExecEnv where
  resultId : Nat
  now : Nat
  endNow : Nat
  execDuration : Option Nat
  httpOutcome : Except String String
  createFails : Bool
  updateFails : Bool
deriving Repr

/-- The `select` in `worker.ExecuteTask`: the `done` channel wins the race
against `ctx.Done()` iff the executor goroutine finishes within the
30-second deadline. -/
def executorFinishesFirst (execDuration : Option Nat) : Bool :=
  match execDuration with
  | some d => d ≤ taskTimeoutSeconds
  | none => false

/-- The body of the executor goroutine in `worker.ExecuteTask`: dispatch on
the task type ("http" runs `executeHTTPTask`, whose nil-config check is in
the source and whose network/decode outcome is the environment's
`httpOutcome`); any other type fails with "unsupported task type". -/
def workerGoroutineOutcome (task : Task) (env : ExecEnv) : Except String String :=
  if task.type = taskTypeHTTP then
    match task.config.http with
    | none => .error "HTTP config is required for HTTP tasks"
    | some _ => env.httpOutcome
  else .error ("unsupported task type: " ++ task.type)

namespace Worker

/-- `worker.ExecuteTask`: build a running result, race the executor
goroutine against the context deadline, mark the result completed or
failed accordingly, and return it with a `nil` error (the function's only
`return` statement is `return result, nil`). -/
def ExecuteTask (task : Task) (env : ExecEnv) : TaskResult × Option String :=
  let base : TaskResult :=
    { id := env.resultId
      taskId := task.id
      status := .running
      output := ""
      error := ""
      startTime := env.now
      endTime := 0
      version := task.version
      metadata := [] }
  let result :=
    if executorFinishesFirst env.execDuration then
      match workerGoroutineOutcome task env with
      | .error e => { base with endTime := env.endNow, status := .failed, error := e }
      | .ok out => { base with endTime := env.endNow, status := .completed, output := out }
    else
      { base with
          endTime := env.endNow
          status := .failed
          error := contextDeadlineExceededMsg }
  (result, none)

end Worker

/-! ## Execution engine (`scheduler.executeTask`, `scheduler.ExecuteTaskNow`) -/

/-- The storage calls one fire makes, with their arguments:
whether `TryLockTask` was called and what it returned, which dependency
ids had their results listed, the arguments of every `CreateTaskResult`
and `UpdateTask` call, and whether `ReleaseLock` ran. -/
structure ExecTrace where
  triedLock : Bool
  acquired : Bool
  depListed : List Nat
  createCalls : List TaskResult
  updateCalls : List Task
  released : Bool
deriving DecidableEq, Repr

/-- Go map assignment `m[k] = v` on an association-list model:
the new binding shadows (replaces) any previous one. -/
def setMeta (m : List (String × String)) (k v : String) : List (String × String) :=
  (k, v) :: m.filter (fun p => p.1 ≠ k)

/-- The dependency loop of `executeTask` (its lines 137-158): walk the
declared dependencies in order; for each, list its results and inspect
`results[len(results)-1]` — the last element of the newest-first list.
Return the dependency ids actually consulted and whether the loop fell
through to execution (`true`) or returned early (`false`). -/
def depScan (st : StoreState) : List Nat → List Nat × Bool
  | [] => ([], true)
  | d :: ds =>
    let results := ListTaskResults st d
    match results.getLast? with
    | none => ([d], false)
    | some lastResult =>
      if lastResult.status = TaskStatus.completed then
        let rest := depScan st ds
        (d :: rest.1, rest.2)
      else ([d], false)

/-- The portion of `scheduler.executeTask` after the lock is acquired
(lines 107-204): dependency gate, worker call, result persistence with the
instance identity added to the metadata, task-status update mirroring the
result, and the deferred `ReleaseLock` on every path. The worker-error
branch (lines 163-180) is embedded although `Worker.ExecuteTask` never
returns an error. -/
def executeLocked (st : StoreState) (inst : String) (task : Task) (env : ExecEnv) :
    StoreState × ExecTrace :=
  let scan := depScan st task.dependencies
  if scan.2 = false then
    (ReleaseLock st task.id inst,
     { triedLock := true, acquired := true, depListed := scan.1,
       createCalls := [], updateCalls := [], released := true })
  else
    let wres := Worker.ExecuteTask task env
    match wres.2 with
    | some e =>
      let failedRes : TaskResult :=
        { id := env.resultId, taskId := task.id, status := .failed,
          output := "", error := e, startTime := env.endNow, endTime := env.endNow,
          version := task.version, metadata := [("instance_id", inst)] }
      let st1 := if env.createFails then st else AddResult st failedRes
      (ReleaseLock st1 task.id inst,
       { triedLock := true, acquired := true, depListed := scan.1,
         createCalls := [failedRes], updateCalls := [], released := true })
    | none =>
      let result := wres.1
      let result2 := { result with metadata := setMeta result.metadata "instance_id" inst }
      if env.createFails then
        (ReleaseLock st task.id inst,
         { triedLock := true, acquired := true, depListed := scan.1,
           createCalls := [result2], updateCalls := [], released := true })
      else
        let st1 := AddResult st result2
        let task2 := { task with status := result2.status, updatedAt := env.endNow }
        if env.updateFails then
          (ReleaseLock st1 task.id inst,
           { triedLock := true, acquired := true, depListed := scan.1,
             createCalls := [result2], updateCalls := [task2], released := true })
        else
          (ReleaseLock (UpdateTaskInStore st1 task2) task.id inst,
           { triedLock := true, acquired := true, depListed := scan.1,
             createCalls := [result2], updateCalls := [task2], released := true })

/-- The trace of a fire that lost the lease race: `TryLockTask` was called
and returned held=false, nothing else happened. -/
def skipTrace : ExecTrace :=
  { triedLock := true, acquired := false, depListed := [],
    createCalls := [], updateCalls := [], released := false }

/-- `scheduler.executeTask`: try to acquire the per-task lease at time
`now`; on contention return immediately with no further storage calls,
otherwise run the locked portion. -/
def executeTask (st : StoreState) (now : Nat) (inst : String) (task : Task)
    (env : ExecEnv) : StoreState × ExecTrace :=
  let lock := TryLockTask st now task.id inst
  if lock.1 then executeLocked lock.2 inst task env
  else (lock.2, skipTrace)

/-- `scheduler.ExecuteTaskNow` (manual invocation): copy the task, execute
the worker under a fresh 30-second context, persist the result (tagged with
the instance identity) and mirror the task status — with no `TryLockTask`
and no `ListTaskResults` call anywhere on the path. Returns the new store,
the trace, and the Go error value. -/
def ExecuteTaskNow (st : StoreState) (inst : String) (task : Task) (env : ExecEnv) :
    StoreState × ExecTrace × Option String :=
  let wres := Worker.ExecuteTask task env
  match wres.2 with
  | some _e =>
    let failedRes : TaskResult :=
      { id := env.resultId, taskId := task.id, status := .failed,
        output := "", error := _e, startTime := env.endNow, endTime := env.endNow,
        version := task.version, metadata := [("instance_id", inst)] }
    if env.createFails then
      (st,
       { triedLock := false, acquired := false, depListed := [],
         createCalls := [failedRes], updateCalls := [], released := false },
       some "failed to store failed result")
    else
      (AddResult st failedRes,
       { triedLock := false, acquired := false, depListed := [],
         createCalls := [failedRes], updateCalls := [], released := false },
       some "failed to execute task")
  | none =>
    let result := wres.1
    let result2 := { result with metadata := setMeta result.metadata "instance_id" inst }
    if env.createFails then
      (st,
       { triedLock := false, acquired := false, depListed := [],
         createCalls := [result2], updateCalls := [], released := false },
       some "failed to store task result")
    else
      let st1 := AddResult st result2
      let task2 := { task with status := result2.status, updatedAt := env.endNow }
      if env.updateFails then
        (st1,
         { triedLock := false, acquired := false, depListed := [],
           createCalls := [result2], updateCalls := [task2], released := false },
         some "failed to update task status")
      else
        (UpdateTaskInStore st1 task2,
         { triedLock := false, acquired := false, depListed := [],
           createCalls := [result2], updateCalls := [task2], released := false },
         none)

/-! ## Peers racing one fire

All peers' `TryLockTask` calls are serialized by the store's atomicity
(in arrival order) within the contention window of one fire — i.e. before
any winner reaches its deferred `ReleaseLock` — and then every peer that
acquired the lease runs the rest of `executeTask`. -/

/-- Phase 1 of a race: each peer's `TryLockTask`, serialized in arrival
order, all at the same instant `now`. Returns the store after all acquire
attempts and each peer's `held` flag. -/
def raceAcquire (st : StoreState) (now taskId : Nat) :
    List String → StoreState × List Bool
  | [] => (st, [])
  | p :: ps =>
    let lock := TryLockTask st now taskId p
    let rest := raceAcquire lock.2 now taskId ps
    (rest.1, lock.1 :: rest.2)

/-- Phase 2 of a race: peers that acquired the lease run the locked
portion of `executeTask`; the others return immediately with the
contention trace. Produces one trace per peer. -/
def runWinners (st : StoreState) (task : Task) :
    List ((String × ExecEnv) × Bool) → StoreState × List ExecTrace
  | [] => (st, [])
  | (p, held) :: rest =>
    if held then
      let step := executeLocked st p.1 task p.2
      let next := runWinners step.1 task rest
      (next.1, step.2 :: next.2)
    else
      let next := runWinners st task rest
      (next.1, skipTrace :: next.2)

/-- N peers race the same fire of `task` at instant `now`: all acquire
attempts happen first (serialized by the store), then the winners execute. -/
def raceFire (st : StoreState) (now : Nat) (task : Task)
    (peers : List (String × ExecEnv)) : StoreState × List ExecTrace :=
  let phase1 := raceAcquire st now task.id (peers.map (fun p => p.1))
  runWinners phase1.1 task (peers.zip phase1.2)

/-! ## Schedule registry (`scheduler.ScheduleTask`, `scheduler.RemoveTask`)

The registry holds `entries : map[uuid.UUID]cron.EntryID` and the cron
runner's entry table. Cron entry ids are handed out by the library from an
increasing counter; `cron.AddFunc` either parses the schedule expression
and adds an entry or fails, which is the `parseOk` parameter here. -/

/-- The scheduler's registry state: the `entries` map (task-id to cron
entry id, as an association list), the cron runner's entry table (entry
id paired with the task-id its callback fires), and the next fresh entry
id. -/
structure SchedState where
  entries : List (Nat × Nat)
  cronJobs : List (Nat × Nat)
  nextEntryId : Nat
deriving DecidableEq, Repr

/-- Go map lookup `entries[taskID]` on the association-list model. -/
def lookupId : List (Nat × Nat) → Nat → Option Nat
  | [], _ => none
  | e :: es, k => if e.1 = k then some e.2 else lookupId es k

/-- How many cron entries currently fire a given task-id
(the firing count per tick for that task). -/
def cronCountFor (s : SchedState) (taskId : Nat) : Nat :=
  (s.cronJobs.filter (fun e => e.2 = taskId)).length

/-- The removal block shared by `ScheduleTask` (lines 70-73) and
`RemoveTask` (lines 211-214): if the task-id has an entry, `cron.Remove`
that entry id and `delete` the map binding. -/
def dropEntry (s : SchedState) (taskId : Nat) : SchedState :=
  match lookupId s.entries taskId with
  | some entryId =>
    { s with
        cronJobs := s.cronJobs.filter (fun e => e.1 ≠ entryId)
        entries := s.entries.filter (fun e => e.1 ≠ taskId) }
  | none => s

/-- `scheduler.ScheduleTask` (its lines 65-90): under the registry mutex,
remove any existing entry for the task-id from both the cron runner and
the `entries` map; then `cron.AddFunc` — on parse success insert the new
entry and record it in the map, on failure return the error (the task-copy
closure is modelled separately by the memory model below). -/
def ScheduleTask (s : SchedState) (task : Task) (parseOk : Bool) :
    SchedState × Bool :=
  let s1 := dropEntry s task.id
  if parseOk then
    ({ entries := (task.id, s1.nextEntryId) :: s1.entries
       cronJobs := (s1.nextEntryId, task.id) :: s1.cronJobs
       nextEntryId := s1.nextEntryId + 1 }, true)
  else (s1, false)

/-- `scheduler.RemoveTask`: remove the task's entry from the cron runner
and the map, if present. -/
def RemoveTask (s : SchedState) (taskId : Nat) : SchedState :=
  dropEntry s taskId

/-- Registry well-formedness: the cron table is exactly the mirror of the
`entries` map, map keys (task ids) are distinct, entry ids are distinct,
and every stored entry id is below the library's counter. -/
def SchedWF (s : SchedState) : Prop :=
  s.cronJobs = s.entries.map (fun e => (e.2, e.1)) ∧
  (s.entries.map (fun e => e.1)).Nodup ∧
  (s.entries.map (fun e => e.2)).Nodup ∧
  ∀ e ∈ s.entries, e.2 < s.nextEntryId

/-! ## Go value semantics of `taskCopy := *task`

`models.Task` holds a slice (`Dependencies []uuid.UUID`) and a pointer
(`Config.HTTP *HTTPTaskConfig`). A Go struct assignment copies the struct
fields — for the slice its header (array address, length) and for the
pointer the address — while the backing array and the pointed-to
`HTTPTaskConfig` stay on the heap, shared between the original and the
copy. The heap is modelled explicitly so both aliasing and isolation are
provable. -/

/-- A task as a Go struct value: scalar fields inline, the dependency
slice as a (heap address, length) header, the HTTP config as a nullable
heap address. -/
structure TaskObj where
  id : Nat
  name : String
  type : String
  schedule : String
  status : TaskStatus
  createdAt : Nat
  updatedAt : Nat
  createdBy : String
  version : Nat
  dependenciesRef : Option (Nat × Nat)
  httpRef : Option Nat
deriving DecidableEq, Repr

/-- The heap cells reachable from task structs: backing arrays of
dependency slices and `HTTPTaskConfig` objects. -/
structure Heap where
  arrays : List (Nat × List Nat)
  https : List (Nat × HTTPTaskConfig)
deriving DecidableEq, Repr

/-- Heap lookup of a dependency backing array. -/
def lookupArray : List (Nat × List Nat) → Nat → Option (List Nat)
  | [], _ => none
  | c :: cs, a => if c.1 = a then some c.2 else lookupArray cs a

/-- Heap lookup of an `HTTPTaskConfig` object. -/
def lookupHTTP : List (Nat × HTTPTaskConfig) → Nat → Option HTTPTaskConfig
  | [], _ => none
  | c :: cs, a => if c.1 = a then some c.2 else lookupHTTP cs a

/-- `taskCopy := *task`: a Go struct assignment copies every field of the
struct — including the slice header and the pointer, not their pointees. -/
def shallowCopy (t : TaskObj) : TaskObj :=
  { id := t.id, name := t.name, type := t.type, schedule := t.schedule,
    status := t.status, createdAt := t.createdAt, updatedAt := t.updatedAt,
    createdBy := t.createdBy, version := t.version,
    dependenciesRef := t.dependenciesRef, httpRef := t.httpRef }

/-- The HTTP configuration a fire of the registered copy executes with:
the pointee of its `Config.HTTP` pointer in the heap as it stands at fire
time. -/
def resolveHTTP (h : Heap) (t : TaskObj) : Option HTTPTaskConfig :=
  match t.httpRef with
  | none => none
  | some a => lookupHTTP h.https a

/-- The dependency list a fire of the registered copy executes with: the
slice's backing array contents (up to its length) at fire time. -/
def resolveDeps (h : Heap) (t : TaskObj) : List Nat :=
  match t.dependenciesRef with
  | none => []
  | some (a, n) =>
    match lookupArray h.arrays a with
    | none => []
    | some xs => xs.take n

/-- The caller mutates `task.Config.HTTP.URL` in place: a store through
the retained pointer, updating the heap cell. -/
def writeHTTPURL (h : Heap) (a : Nat) (url : String) : Heap :=
  { h with https := h.https.map (fun c => if c.1 = a then (c.1, { c.2 with url := url }) else c) }

/-- The caller mutates `task.Dependencies[i]` in place: a store into the
slice's backing array. -/
def writeArrayElem (h : Heap) (a : Nat) (i : Nat) (v : Nat) : Heap :=
  { h with arrays := h.arrays.map (fun c => if c.1 = a then (c.1, c.2.set i v) else c) }

/-! ## The dependency gate as the specification words it

For comparison with the implemented check: "returns proceed only if every
dependency has at least one Result and that dependency's most recent
Result has status completed". The most recent result is the head of the
newest-first `ListTaskResults` list. -/

/-- The Dependency Gate as specified (§4.3): consult each dependency's
MOST RECENT result — the head of the newest-first list. -/
def depGateSpecProceed (st : StoreState) (deps : List Nat) : Bool :=
  deps.all (fun d =>
    match (ListTaskResults st d).head? with
    | none => false
    | some r => r.status = TaskStatus.completed)

/-! ## Concrete instances used by witnesses and counterexamples -/

/-- A sample HTTP task configuration. -/
def sampleHTTP : HTTPTaskConfig :=
  { url := "http://a", method := "GET", headers := [], body := "" }

/-- A sample HTTP task with no dependencies. -/
def sampleTask : Task :=
  { id := 9, name := "t", type := "http", schedule := "* * * * *",
    status := .pending, createdAt := 0, updatedAt := 0, createdBy := "u",
    version := 1, dependencies := [], config := { http := some sampleHTTP } }

/-- A sample benign execution environment: the executor finishes in one
second with a decoded body, and both storage writes succeed. -/
def sampleEnv : ExecEnv :=
  { resultId := 100, now := 10, endNow := 11, execDuration := some 1,
    httpOutcome := .ok "body", createFails := false, updateFails := false }

/-- An environment whose executor never returns. -/
def hangEnv : ExecEnv := { sampleEnv with execDuration := none }

/-- A store holding only the sample task: no results, no leases. -/
def sampleStore : StoreState := { tasks := [sampleTask], results := [], leases := [] }

/-- Older result of dependency task 7: completed, start time 1. -/
def depOldResult : TaskResult :=
  { id := 1, taskId := 7, status := .completed, output := "", error := "",
    startTime := 1, endTime := 1, version := 1, metadata := [] }

/-- Newer result of dependency task 7: failed, start time 2. -/
def depNewResult : TaskResult :=
  { id := 2, taskId := 7, status := .failed, output := "", error := "",
    startTime := 2, endTime := 2, version := 1, metadata := [] }

/-- A store where dependency 7's most recent result is failed but its
oldest result is completed. -/
def depBugStore : StoreState :=
  { tasks := [], results := [depOldResult, depNewResult], leases := [] }

/-- The sample task declaring task 7 as its one dependency. -/
def depBugTask : Task := { sampleTask with dependencies := [7] }

/-- A store where another instance ("B") holds an unexpired lease on the
sample task. -/
def heldStore : StoreState :=
  { tasks := [sampleTask], results := [],
    leases := [{ taskId := 9, holder := "B", expiry := 1000 }] }

/-- A result carrying the instance identity in its metadata. -/
def taggedResult : TaskResult :=
  { id := 3, taskId := 9, status := .completed, output := "", error := "",
    startTime := 0, endTime := 0, version := 1,
    metadata := [("instance_id", "A")] }

/-- A registry already holding the sample task (entry id 0). -/
def sampleSched : SchedState :=
  { entries := [(9, 0)], cronJobs := [(0, 9)], nextEntryId := 1 }

/-- A heap with one dependency backing array at address 0 and one
`HTTPTaskConfig` object at address 1. -/
def sampleHeap : Heap :=
  { arrays := [(0, [7])], https := [(1, sampleHTTP)] }

/-- The sample task as a Go struct value referencing `sampleHeap`. -/
def sampleTaskObj : TaskObj :=
  { id := 9, name := "t", type := "http", schedule := "* * * * *",
    status := .pending, createdAt := 0, updatedAt := 0, createdBy := "u",
    version := 1, dependenciesRef := some (0, 1), httpRef := some 1 }

/-! ## Helper lemmas -/

/-- `TryLockTask` never touches the results table. -/
theorem TryLockTask_results (st : StoreState) (now taskId : Nat) (inst : String) :
    (TryLockTask st now taskId inst).2.results = st.results := by
  unfold TryLockTask
  split <;> rfl

/-- `TryLockTask` never touches the tasks table. -/
theorem TryLockTask_tasks (st : StoreState) (now taskId : Nat) (inst : String) :
    (TryLockTask st now taskId inst).2.tasks = st.tasks := by
  unfold TryLockTask
  split <;> rfl

/-- `ReleaseLock` never touches the results table. -/
theorem ReleaseLock_results (st : StoreState) (taskId : Nat) (inst : String) :
    (ReleaseLock st taskId inst).results = st.results := rfl

/-- `ReleaseLock` never touches the tasks table. -/
theorem ReleaseLock_tasks (st : StoreState) (taskId : Nat) (inst : String) :
    (ReleaseLock st taskId inst).tasks = st.tasks := rfl

/-- The worker's returned error is always `none`. -/
theorem workerExecuteTask_err (task : Task) (env : ExecEnv) :
    (Worker.ExecuteTask task env).2 = none := rfl

/-- The worker's returned status is completed or failed, never pending or
running. -/
theorem workerExecuteTask_status (task : Task) (env : ExecEnv) :
    (Worker.ExecuteTask task env).1.status = TaskStatus.completed ∨
    (Worker.ExecuteTask task env).1.status = TaskStatus.failed := by
  unfold Worker.ExecuteTask
  dsimp only
  split
  · split <;> simp
  · simp

/-- Every `CreateTaskResult` argument produced by the locked portion of a
fire carries the executing instance's identity in its metadata. -/
theorem executeLocked_createCalls_tagged (st : StoreState) (inst : String)
    (task : Task) (env : ExecEnv) :
    ((executeLocked st inst task env).2.createCalls.all
      (fun r => r.metadata.contains ("instance_id", inst))) = true := by
  unfold executeLocked
  dsimp only
  split
  · rfl
  · rw [workerExecuteTask_err]
    dsimp only
    split
    · simp [setMeta]
    · split <;> simp [setMeta]

/-- Every `CreateTaskResult` argument produced by `executeTask` carries the
executing instance's identity in its metadata. -/
theorem executeTask_createCalls_tagged (st : StoreState) (now : Nat)
    (inst : String) (task : Task) (env : ExecEnv) :
    ((executeTask st now inst task env).2.createCalls.all
      (fun r => r.metadata.contains ("instance_id", inst))) = true := by
  unfold executeTask
  dsimp only
  split
  · exact executeLocked_createCalls_tagged _ _ _ _
  · rfl

/-- Every `CreateTaskResult` argument produced by `ExecuteTaskNow` carries
the executing instance's identity in its metadata. -/
theorem executeTaskNow_createCalls_tagged (st : StoreState) (inst : String)
    (task : Task) (env : ExecEnv) :
    ((ExecuteTaskNow st inst task env).2.1.createCalls.all
      (fun r => r.metadata.contains ("instance_id", inst))) = true := by
  unfold ExecuteTaskNow
  dsimp only
  rw [workerExecuteTask_err]
  dsimp only
  split
  · simp [setMeta]
  · split <;> simp [setMeta]

/-- After `UpdateTaskInStore`, any stored task carrying the updated id is
the updated task. -/
theorem mem_updateTaskInStore (st : StoreState) (t : Task) :
    ∀ u ∈ (UpdateTaskInStore st t).tasks, u.id = t.id → u = t := by
  intro u hu hid
  unfold UpdateTaskInStore at hu
  rcases List.mem_map.mp hu with ⟨orig, _, heq⟩
  by_cases hc : orig.id = t.id
  · rw [if_pos hc] at heq
    exact heq.symm
  · rw [if_neg hc] at heq
    rw [← heq] at hid
    exact absurd hid hc

/-- Writing through an HTTP-config pointer changes what that address
resolves to. -/
theorem lookupHTTP_write_self (l : List (Nat × HTTPTaskConfig)) (a : Nat)
    (url : String) (v : HTTPTaskConfig) (hv : lookupHTTP l a = some v) :
    lookupHTTP (l.map (fun c => if c.1 = a then (c.1, { c.2 with url := url }) else c)) a =
      some { v with url := url } := by
  induction l with
  | nil => cases hv
  | cons c cs ih =>
    by_cases hc : c.1 = a
    · unfold lookupHTTP at hv
      rw [if_pos hc] at hv
      cases hv
      simp [lookupHTTP, hc]
    · unfold lookupHTTP at hv
      rw [if_neg hc] at hv
      simp only [List.map_cons, if_neg hc]
      unfold lookupHTTP
      rw [if_neg hc]
      exact ih hv

/-- Writing through an HTTP-config pointer leaves every other address
unchanged. -/
theorem lookupHTTP_write_other (l : List (Nat × HTTPTaskConfig)) (a b : Nat)
    (url : String) (hab : b ≠ a) :
    lookupHTTP (l.map (fun c => if c.1 = a then (c.1, { c.2 with url := url }) else c)) b =
      lookupHTTP l b := by
  induction l with
  | nil => rfl
  | cons c cs ih =>
    by_cases hc : c.1 = a
    · have hb : ¬(c.1 = b) := fun hh => hab (hh ▸ hc)
      simp only [List.map_cons, if_pos hc]
      unfold lookupHTTP
      dsimp only
      rw [if_neg hb, if_neg hb]
      exact ih
    · simp only [List.map_cons, if_neg hc]
      unfold lookupHTTP
      by_cases hb : c.1 = b
      · rw [if_pos hb, if_pos hb]
      · rw [if_neg hb, if_neg hb]
        exact ih

/-- Storing into a slice's backing array changes what that address
resolves to. -/
theorem lookupArray_write_self (l : List (Nat × List Nat)) (a i w : Nat)
    (xs : List Nat) (hv : lookupArray l a = some xs) :
    lookupArray (l.map (fun c => if c.1 = a then (c.1, c.2.set i w) else c)) a =
      some (xs.set i w) := by
  induction l with
  | nil => cases hv
  | cons c cs ih =>
    by_cases hc : c.1 = a
    · unfold lookupArray at hv
      rw [if_pos hc] at hv
      cases hv
      simp [lookupArray, hc]
    · unfold lookupArray at hv
      rw [if_neg hc] at hv
      simp only [List.map_cons, if_neg hc]
      unfold lookupArray
      rw [if_neg hc]
      exact ih hv

/-- A successful map lookup yields a binding of the list. -/
theorem lookupId_mem (l : List (Nat × Nat)) (k v : Nat)
    (h : lookupId l k = some v) : (k, v) ∈ l := by
  induction l with
  | nil => cases h
  | cons e es ih =>
    unfold lookupId at h
    by_cases hk : e.1 = k
    · rw [if_pos hk] at h
      injection h with h
      rw [← h, ← hk]
      exact List.mem_cons_self _ _
    · rw [if_neg hk] at h
      exact List.mem_cons_of_mem _ (ih h)

/-- A failed map lookup means the key is absent. -/
theorem lookupId_none (l : List (Nat × Nat)) (k : Nat)
    (h : lookupId l k = none) : k ∉ l.map (fun e => e.1) := by
  induction l with
  | nil => simp
  | cons e es ih =>
    unfold lookupId at h
    by_cases hk : e.1 = k
    · rw [if_pos hk] at h
      cases h
    · rw [if_neg hk] at h
      simp only [List.map_cons, List.mem_cons]
      rintro (h1 | h1)
      · exact hk h1.symm
      · exact ih h h1

/-- With distinct keys, a key determines its value. -/
theorem nodup_keys_unique (l : List (Nat × Nat))
    (h : (l.map (fun e => e.1)).Nodup) (k v w : Nat)
    (h1 : (k, v) ∈ l) (h2 : (k, w) ∈ l) : v = w := by
  induction l with
  | nil => cases h1
  | cons e es ih =>
    rw [List.map_cons, List.nodup_cons] at h
    rcases List.mem_cons.mp h1 with he1 | he1 <;>
      rcases List.mem_cons.mp h2 with he2 | he2
    · rw [← he1] at he2
      injection he2 with _ hw
      exact hw.symm
    · exfalso
      apply h.1
      rw [← he1]
      exact List.mem_map_of_mem (fun e => e.1) he2
    · exfalso
      apply h.1
      rw [← he2]
      exact List.mem_map_of_mem (fun e => e.1) he1
    · exact ih h.2 he1 he2

/-- With distinct values, a value determines its key. -/
theorem nodup_values_unique (l : List (Nat × Nat))
    (h : (l.map (fun e => e.2)).Nodup) (k1 k2 v : Nat)
    (h1 : (k1, v) ∈ l) (h2 : (k2, v) ∈ l) : k1 = k2 := by
  induction l with
  | nil => cases h1
  | cons e es ih =>
    rw [List.map_cons, List.nodup_cons] at h
    rcases List.mem_cons.mp h1 with he1 | he1 <;>
      rcases List.mem_cons.mp h2 with he2 | he2
    · rw [← he1] at he2
      injection he2 with hk _
      exact hk.symm
    · exfalso
      apply h.1
      rw [← he1]
      exact List.mem_map_of_mem (fun e => e.2) he2
    · exfalso
      apply h.1
      rw [← he2]
      exact List.mem_map_of_mem (fun e => e.2) he1
    · exact ih h.2 he1 he2

/-- Filtering away a key leaves no binding with that key. -/
theorem filter_key_eq_nil (l : List (Nat × Nat)) (k : Nat)
    (h : k ∉ l.map (fun e => e.1)) :
    l.filter (fun e => e.1 = k) = [] := by
  induction l with
  | nil => rfl
  | cons e es ih =>
    simp only [List.map_cons, List.mem_cons] at h
    push_neg at h
    rw [List.filter_cons, if_neg (by simpa using fun hh => h.1 hh.symm)]
    exact ih h.2

/-- With distinct keys, at most one binding per key. -/
theorem filter_key_le_one (l : List (Nat × Nat)) (k : Nat)
    (h : (l.map (fun e => e.1)).Nodup) :
    (l.filter (fun e => e.1 = k)).length ≤ 1 := by
  induction l with
  | nil => exact Nat.zero_le 1
  | cons e es ih =>
    rw [List.map_cons, List.nodup_cons] at h
    rw [List.filter_cons]
    by_cases hk : e.1 = k
    · rw [if_pos (by simpa using hk)]
      have : es.filter (fun e => e.1 = k) = [] := by
        apply filter_key_eq_nil
        rw [hk] at h
        exact h.1
      rw [this]
      exact Nat.le_refl 1
    · rw [if_neg (by simpa using hk)]
      exact ih h.2

/-- No binding carries a value at or above the counter bound. -/
theorem fresh_value_not_mem (l : List (Nat × Nat)) (n : Nat)
    (h : ∀ e ∈ l, e.2 < n) : n ∉ l.map (fun e => e.2) := by
  intro hmem
  rcases List.mem_map.mp hmem with ⟨e, he, heq⟩
  have := h e he
  rw [heq] at this
  exact Nat.lt_irrefl n this

/-- Under the mirror invariant, the cron count for a task-id equals the
number of its map bindings. -/
theorem cron_count_eq_entries (s : SchedState)
    (hm : s.cronJobs = s.entries.map (fun e => (e.2, e.1))) (taskId : Nat) :
    cronCountFor s taskId = (s.entries.filter (fun e => e.1 = taskId)).length := by
  unfold cronCountFor
  rw [hm, List.filter_map]
  rw [List.length_map]
  rfl

/-- `dropEntry` preserves the registry invariant, removes the key from the
map, keeps the counter, and removes the old cron entry. -/
theorem dropEntry_wf (s : SchedState) (taskId : Nat) (h : SchedWF s) :
    SchedWF (dropEntry s taskId) ∧
    taskId ∉ (dropEntry s taskId).entries.map (fun e => e.1) ∧
    (dropEntry s taskId).nextEntryId = s.nextEntryId ∧
    (∀ eid, lookupId s.entries taskId = some eid →
      ∀ p ∈ (dropEntry s taskId).cronJobs, p.1 ≠ eid) := by
  obtain ⟨hm, hkeys, hvals, hbound⟩ := h
  unfold dropEntry
  cases hlk : lookupId s.entries taskId with
  | none =>
    refine ⟨⟨hm, hkeys, hvals, hbound⟩, lookupId_none _ _ hlk, rfl, ?_⟩
    intro eid heq
    cases heq
  | some eid =>
    have hbind : (taskId, eid) ∈ s.entries := lookupId_mem _ _ _ hlk
    have hpt : ∀ e ∈ s.entries,
        (decide (((fun (x : Nat × Nat) => (x.2, x.1)) e).1 ≠ eid)) =
          (decide (e.1 ≠ taskId)) := by
      intro e he
      dsimp only
      by_cases h1 : e.1 = taskId
      · have : e.2 = eid := by
          apply nodup_keys_unique s.entries hkeys taskId
          · rw [← h1]
            exact he
          · exact hbind
        simp [h1, this]
      · have : e.2 ≠ eid := by
          intro h2
          apply h1
          apply nodup_values_unique s.entries hvals e.1 taskId eid
          · rw [← h2]
            exact he
          · exact hbind
        simp [h1, this]
    have hcron : s.cronJobs.filter (fun e => e.1 ≠ eid) =
        (s.entries.filter (fun e => e.1 ≠ taskId)).map (fun e => (e.2, e.1)) := by
      rw [hm, List.filter_map]
      congr 1
      exact List.filter_congr hpt
    have hsub1 : List.Sublist
        ((s.entries.filter (fun e => e.1 ≠ taskId)).map (fun e => e.1))
        (s.entries.map (fun e => e.1)) := (List.filter_sublist _).map _
    have hsub2 : List.Sublist
        ((s.entries.filter (fun e => e.1 ≠ taskId)).map (fun e => e.2))
        (s.entries.map (fun e => e.2)) := (List.filter_sublist _).map _
    refine ⟨⟨hcron, hkeys.sublist hsub1, hvals.sublist hsub2, ?_⟩, ?_, rfl, ?_⟩
    · intro e he
      exact hbound e (List.mem_of_mem_filter he)
    · intro hmem
      rcases List.mem_map.mp hmem with ⟨e, he, heq⟩
      have := List.of_mem_filter he
      rw [heq] at this
      simp at this
    · intro eid2 heq p hp
      injection heq with heq
      rw [← heq]
      have := List.of_mem_filter hp
      simpa using this

/-- An unexpired lease row for a task-id is in particular a lease row for
that task-id: the unexpired count is bounded by the row count. -/
theorem unexpired_le_rows (st : StoreState) (now tid : Nat) :
    unexpiredLeasesFor st now tid ≤ leaseRowsFor st tid := by
  unfold unexpiredLeasesFor leaseRowsFor
  induction st.leases with
  | nil => exact Nat.le_refl 0
  | cons l ls ih =>
    rw [List.filter_cons, List.filter_cons]
    by_cases h1 : l.taskId = tid
    · by_cases h2 : now < l.expiry
      · rw [if_pos (by simp [h1, h2]), if_pos (by simp [h1])]
        exact Nat.succ_le_succ ih
      · rw [if_neg (by simp [h1, h2]), if_pos (by simp [h1])]
        exact Nat.le_succ_of_le ih
    · rw [if_neg (by simp [h1]), if_neg (by simp [h1])]
      exact ih

/-- Rows with one task-id, filtered out, leave no rows with that task-id. -/
theorem filter_ne_then_eq (ls : List Lease) (a : Nat) :
    (ls.filter (fun l => l.taskId ≠ a)).filter (fun l => l.taskId = a) = [] := by
  induction ls with
  | nil => rfl
  | cons l ls ih =>
    rw [List.filter_cons]
    by_cases h : l.taskId = a
    · rw [if_neg (by simp [h])]
      exact ih
    · rw [if_pos (by simp [h]), List.filter_cons, if_neg (by simp [h])]
      exact ih

/-- `TryLockTask` keeps at most one lease row per task-id. -/
theorem tryLock_rows (st : StoreState) (now taskId : Nat) (inst : String)
    (tid : Nat) (h : leaseRowsFor st tid ≤ 1) :
    leaseRowsFor (TryLockTask st now taskId inst).2 tid ≤ 1 := by
  unfold TryLockTask
  split
  · exact h
  · unfold leaseRowsFor
    dsimp only
    rw [List.filter_cons]
    by_cases htid : tid = taskId
    · rw [if_pos (by simp [htid])]
      rw [htid, filter_ne_then_eq]
      exact Nat.le_refl 1
    · rw [if_neg (by simp only [decide_eq_true_eq]; exact fun hh => htid hh.symm)]
      calc ((st.leases.filter (fun l => l.taskId ≠ taskId)).filter
              (fun l => l.taskId = tid)).length
          ≤ (st.leases.filter (fun l => l.taskId = tid)).length :=
            ((List.filter_sublist _).filter _).length_le
        _ ≤ 1 := h

/-- `RefreshLock` keeps the lease-row count of every task-id unchanged. -/
theorem refresh_rows (st : StoreState) (now taskId : Nat) (inst : String)
    (tid : Nat) : leaseRowsFor (RefreshLock st now taskId inst).2 tid =
      leaseRowsFor st tid := by
  unfold RefreshLock
  split
  · unfold leaseRowsFor
    dsimp only
    induction st.leases with
    | nil => rfl
    | cons l ls ih =>
      rw [List.map_cons, List.filter_cons, List.filter_cons]
      by_cases hc : (l.taskId = taskId && l.holder = inst) = true
      · rw [if_pos hc]
        by_cases ht : l.taskId = tid
        · rw [if_pos (by simp [ht]), if_pos (by simp [ht])]
          rw [List.length_cons, List.length_cons, ih]
        · rw [if_neg (by simp [ht]), if_neg (by simp [ht])]
          exact ih
      · rw [if_neg hc]
        by_cases ht : l.taskId = tid
        · rw [if_pos (by simp [ht]), if_pos (by simp [ht])]
          rw [List.length_cons, List.length_cons, ih]
        · rw [if_neg (by simp [ht]), if_neg (by simp [ht])]
          exact ih
  · rfl

/-- `ReleaseLock` never increases the lease-row count of any task-id. -/
theorem release_rows (st : StoreState) (taskId : Nat) (inst : String)
    (tid : Nat) (h : leaseRowsFor st tid ≤ 1) :
    leaseRowsFor (ReleaseLock st taskId inst) tid ≤ 1 := by
  unfold ReleaseLock leaseRowsFor
  calc ((st.leases.filter _).filter (fun l => l.taskId = tid)).length
      ≤ (st.leases.filter (fun l => l.taskId = tid)).length :=
        ((List.filter_sublist _).filter _).length_le
    _ ≤ 1 := h

/-- Acquiring against an unexpired lease fails and leaves the store
untouched. -/
theorem tryLock_of_unexpired (st : StoreState) (now taskId : Nat) (inst : String)
    (h : hasUnexpiredLease st now taskId = true) :
    TryLockTask st now taskId inst = (false, st) := by
  unfold TryLockTask
  rw [if_pos h]

/-- Acquiring with no unexpired lease succeeds, and afterwards an
unexpired lease for the task-id exists. -/
theorem tryLock_of_free (st : StoreState) (now taskId : Nat) (inst : String)
    (h : hasUnexpiredLease st now taskId = false) :
    (TryLockTask st now taskId inst).1 = true ∧
    hasUnexpiredLease (TryLockTask st now taskId inst).2 now taskId = true ∧
    (TryLockTask st now taskId inst).2.results = st.results := by
  unfold TryLockTask
  rw [if_neg (by rw [h]; exact Bool.false_ne_true)]
  refine ⟨rfl, ?_, rfl⟩
  unfold hasUnexpiredLease
  dsimp only
  rw [List.any_cons]
  have : now < now + leaseDurationSeconds := Nat.lt_add_of_pos_right (by decide)
  simp [this]

/-- Once an unexpired lease exists, every further acquire in the race
fails and the store stays as it is. -/
theorem raceAcquire_locked (st : StoreState) (now taskId : Nat)
    (ps : List String) (h : hasUnexpiredLease st now taskId = true) :
    raceAcquire st now taskId ps = (st, ps.map (fun _ => false)) := by
  induction ps with
  | nil => rfl
  | cons p ps ih =>
    unfold raceAcquire
    rw [tryLock_of_unexpired st now taskId p h]
    dsimp only
    rw [ih]
    rfl

/-- Losers run nothing: folding `runWinners` over peers whose flag is
false leaves the store untouched and yields only skip traces. -/
theorem runWinners_all_false (st : StoreState) (task : Task)
    (qs : List (String × ExecEnv)) :
    runWinners st task (qs.map (fun q => (q, false))) =
      (st, qs.map (fun _ => skipTrace)) := by
  induction qs with
  | nil => rfl
  | cons q qs ih =>
    rw [List.map_cons]
    unfold runWinners
    rw [if_neg Bool.false_ne_true]
    dsimp only
    rw [ih]
    rfl

/-- Zipping a peer list with matching all-false flags pairs each peer with
`false`. -/
theorem zip_map_false (qs : List (String × ExecEnv)) :
    qs.zip ((qs.map (fun p => p.1)).map (fun _ => false)) =
      qs.map (fun q => (q, false)) := by
  induction qs with
  | nil => rfl
  | cons q qs ih =>
    simp only [List.map_cons, List.zip_cons_cons, ih]

/-- The locked portion of a dependency-free fire whose result write
succeeds: the trace shows an acquired lease, exactly one
`CreateTaskResult` call, and the store gains exactly one result. -/
theorem executeLocked_noDeps (st : StoreState) (inst : String) (task : Task)
    (env : ExecEnv) (hdeps : task.dependencies = [])
    (hc : env.createFails = false) :
    (executeLocked st inst task env).2.acquired = true ∧
    (executeLocked st inst task env).2.createCalls.length = 1 ∧
    (executeLocked st inst task env).1.results.length = st.results.length + 1 := by
  unfold executeLocked
  rw [hdeps]
  dsimp only
  have hscan : ¬((depScan st ([] : List Nat)).2 = false) :=
    fun hh => Bool.false_ne_true hh.symm
  rw [if_neg hscan]
  rw [workerExecuteTask_err]
  dsimp only
  rw [hc]
  rw [if_neg Bool.false_ne_true]
  cases hu : env.updateFails
  · rw [if_neg Bool.false_ne_true]
    refine ⟨rfl, rfl, ?_⟩
    simp [ReleaseLock, UpdateTaskInStore, AddResult]
  · rw [if_pos rfl]
    refine ⟨rfl, rfl, ?_⟩
    simp [ReleaseLock, AddResult]

/-- No skip trace counts as acquired. -/
theorem skips_countP (qs : List (String × ExecEnv)) :
    (qs.map (fun _ => skipTrace)).countP (fun tr => tr.acquired) = 0 := by
  induction qs with
  | nil => rfl
  | cons q qs ih =>
    rw [List.map_cons, List.countP_cons, ih]
    rfl

/-- Skip traces carry no `CreateTaskResult` calls. -/
theorem skips_sum (qs : List (String × ExecEnv)) :
    ((qs.map (fun _ => skipTrace)).map (fun tr => tr.createCalls.length)).sum = 0 := by
  induction qs with
  | nil => rfl
  | cons q qs ih =>
    rw [List.map_cons, List.map_cons, List.sum_cons, ih]
    rfl

/-- Every trace in the all-skip tail is the skip trace. -/
theorem skips_mem (qs : List (String × ExecEnv)) :
    ∀ tr ∈ qs.map (fun _ => skipTrace), tr = skipTrace := by
  intro tr htr
  rcases List.mem_map.mp htr with ⟨_, _, heq⟩
  exact heq.symm

/-! ## Claim theorems -/

/-- C9: `Worker.ExecuteTask` is total on its success/failure channel: for
every task (unknown types and HTTP failures included) it returns a result
with a `nil` error, and the returned status is exactly completed or
failed; hence the callers' `err != nil` branches, which synthesize a
substitute failed result, are unreachable. -/
theorem worker_executeTask_total (task : Task) (env : ExecEnv) :
    (Worker.ExecuteTask task env).2 = none ∧
    ((Worker.ExecuteTask task env).1.status = TaskStatus.completed ∨
     (Worker.ExecuteTask task env).1.status = TaskStatus.failed) := by
  refine ⟨rfl, ?_⟩
  unfold Worker.ExecuteTask
  dsimp only
  split
  · split <;> simp
  · simp

/-- C4: a 30-second timeout bounds the executor call (the derived context
of `executeTask` and `ExecuteTaskNow` uses `taskTimeoutSeconds = 30`),
and when the executor has not completed by the deadline —
`executorFinishesFirst` is false, in particular for an executor that never
returns — `Worker.ExecuteTask` still returns (no hang, no panic) a result
whose status is failed and whose error text is the context's timeout
error. -/
theorem timeout_yields_failed_result (task : Task) (env : ExecEnv)
    (h : executorFinishesFirst env.execDuration = false) :
    taskTimeoutSeconds = 30 ∧
    (Worker.ExecuteTask task env).2 = none ∧
    (Worker.ExecuteTask task env).1.status = TaskStatus.failed ∧
    (Worker.ExecuteTask task env).1.error = contextDeadlineExceededMsg := by
  refine ⟨rfl, rfl, ?_, ?_⟩ <;>
    · unfold Worker.ExecuteTask
      dsimp only
      rw [h]
      simp

/-- Witness for C4 at a concrete never-returning executor. -/
theorem timeout_yields_failed_result_witness :
    executorFinishesFirst hangEnv.execDuration = false ∧
    (taskTimeoutSeconds = 30 ∧
     (Worker.ExecuteTask sampleTask hangEnv).2 = none ∧
     (Worker.ExecuteTask sampleTask hangEnv).1.status = TaskStatus.failed ∧
     (Worker.ExecuteTask sampleTask hangEnv).1.error = contextDeadlineExceededMsg) :=
  ⟨rfl, timeout_yields_failed_result sampleTask hangEnv rfl⟩

/-- C10: `ExecuteTaskNow` executes the task and persists a result without
acquiring a lease and without consulting any dependency's results — its
trace never contains a `TryLockTask` call nor a `ListTaskResults` call,
it calls `CreateTaskResult` exactly once for every task (dependencies,
satisfied or not, are never looked at), and when the result write succeeds
the store gains exactly one result row. -/
theorem executeTaskNow_bypasses_lease_and_dependencies
    (st : StoreState) (inst : String) (task : Task) (env : ExecEnv) :
    (ExecuteTaskNow st inst task env).2.1.triedLock = false ∧
    (ExecuteTaskNow st inst task env).2.1.depListed = [] ∧
    (ExecuteTaskNow st inst task env).2.1.createCalls.length = 1 ∧
    (env.createFails = false →
      (ExecuteTaskNow st inst task env).1.results.length = st.results.length + 1) := by
  unfold ExecuteTaskNow
  dsimp only
  rw [workerExecuteTask_err]
  dsimp only
  cases hc : env.createFails
  · cases hu : env.updateFails <;>
      simp [AddResult, UpdateTaskInStore]
  · simp

/-- Witness for C10: the manual invocation of a task whose one dependency
has a failed latest result still runs and persists exactly one result. -/
theorem executeTaskNow_bypasses_lease_and_dependencies_witness :
    (ExecuteTaskNow depBugStore "A" depBugTask sampleEnv).2.1.triedLock = false ∧
    (ExecuteTaskNow depBugStore "A" depBugTask sampleEnv).2.1.depListed = [] ∧
    (ExecuteTaskNow depBugStore "A" depBugTask sampleEnv).2.1.createCalls.length = 1 ∧
    (ExecuteTaskNow depBugStore "A" depBugTask sampleEnv).1.results.length =
      depBugStore.results.length + 1 := by
  have h := executeTaskNow_bypasses_lease_and_dependencies depBugStore "A" depBugTask sampleEnv
  exact ⟨h.1, h.2.1, h.2.2.1, h.2.2.2 rfl⟩

/-- C2 (failing input): dependency 7 has an older completed result and a
newer failed one. `ListTaskResults` returns newest first, so the most
recent result — failed — is the head; the specified gate holds the fire;
but `executeTask` inspects `results[len(results)-1]`, the OLDEST result
(completed), proceeds, and records a result for the fire. -/
theorem dependency_check_uses_oldest_result :
    (ListTaskResults depBugStore 7).head? = some depNewResult ∧
    depNewResult.status = TaskStatus.failed ∧
    depGateSpecProceed depBugStore [7] = false ∧
    (depScan depBugStore [7]).2 = true ∧
    (executeTask depBugStore 5 "A" depBugTask sampleEnv).2.createCalls.length = 1 :=
  ⟨rfl, rfl, rfl, rfl, rfl⟩

/-- C6 (counterexample): the row written by `CreateTaskResult` binds only
id, task_id, status, output, error, start_time, end_time and version — a
result whose metadata carries the instance identity persists identically
to the same result with no metadata at all, so the metadata is not part
of the persisted record. -/
theorem metadata_not_persisted_counterexample :
    taggedResult.metadata ≠ [] ∧
    CreateTaskResultRow taggedResult =
      CreateTaskResultRow { taggedResult with metadata := [] } :=
  ⟨by decide, rfl⟩

/-- C6 (amended): every result recorded by an execution — the scheduled
path and the manual path, success or failure — carries metadata including
the executing instance's identity on the in-memory `TaskResult` handed to
`CreateTaskResult`, but the persisted row is independent of the metadata
field: the storage layer does not persist it. -/
theorem metadata_tagged_in_memory_not_persisted
    (st : StoreState) (now : Nat) (inst : String) (task : Task) (env : ExecEnv) :
    (∀ r : TaskResult,
      CreateTaskResultRow { r with metadata := [] } = CreateTaskResultRow r) ∧
    ((executeTask st now inst task env).2.createCalls.all
      (fun r => r.metadata.contains ("instance_id", inst))) = true ∧
    ((ExecuteTaskNow st inst task env).2.1.createCalls.all
      (fun r => r.metadata.contains ("instance_id", inst))) = true :=
  ⟨fun _ => rfl,
   executeTask_createCalls_tagged st now inst task env,
   executeTaskNow_createCalls_tagged st inst task env⟩

/-- C3: a fire that ends early — contention (`TryLockTask` returned
held=false) or a dependency hold (no result, or a non-completed checked
result) — makes no `CreateTaskResult` call and no `UpdateTask` call, and
leaves the stored results and tasks untouched. -/
theorem early_exit_records_nothing
    (st : StoreState) (now : Nat) (inst : String) (task : Task) (env : ExecEnv)
    (h : (TryLockTask st now task.id inst).1 = false ∨
         (depScan (TryLockTask st now task.id inst).2 task.dependencies).2 = false) :
    (executeTask st now inst task env).2.createCalls = [] ∧
    (executeTask st now inst task env).2.updateCalls = [] ∧
    (executeTask st now inst task env).1.results = st.results ∧
    (executeTask st now inst task env).1.tasks = st.tasks := by
  unfold executeTask
  dsimp only
  cases hl : (TryLockTask st now task.id inst).1 with
  | false =>
    rw [if_neg Bool.false_ne_true]
    exact ⟨rfl, rfl, TryLockTask_results st now task.id inst,
           TryLockTask_tasks st now task.id inst⟩
  | true =>
    have h2 : (depScan (TryLockTask st now task.id inst).2 task.dependencies).2 = false := by
      rcases h with h | h
      · rw [hl] at h
        cases h
      · exact h
    simp only [if_true]
    unfold executeLocked
    dsimp only
    rw [if_pos h2]
    refine ⟨rfl, rfl, ?_, ?_⟩
    · rw [ReleaseLock_results, TryLockTask_results]
    · rw [ReleaseLock_tasks, TryLockTask_tasks]

/-- Witness for C3: instance "A" races a store where instance "B" holds
an unexpired lease on the sample task; nothing is recorded. -/
theorem early_exit_records_nothing_witness :
    (TryLockTask heldStore 5 sampleTask.id "A").1 = false ∧
    ((executeTask heldStore 5 "A" sampleTask sampleEnv).2.createCalls = [] ∧
     (executeTask heldStore 5 "A" sampleTask sampleEnv).2.updateCalls = [] ∧
     (executeTask heldStore 5 "A" sampleTask sampleEnv).1.results = heldStore.results ∧
     (executeTask heldStore 5 "A" sampleTask sampleEnv).1.tasks = heldStore.tasks) :=
  ⟨rfl, early_exit_records_nothing heldStore 5 "A" sampleTask sampleEnv (Or.inl rfl)⟩

/-- C5: an execution that passes the lease and dependency gates — and
every `ExecuteTaskNow` invocation — calls `CreateTaskResult` exactly once,
executor success and failure alike; and whenever the result write
succeeds, `UpdateTask` is called with the task's status set to the
recorded result's status (and the stored task row, if present, mirrors
it once the update lands). -/
theorem one_result_per_execution_and_status_mirrored
    (st : StoreState) (now : Nat) (inst : String) (task : Task) (env : ExecEnv)
    (h1 : (TryLockTask st now task.id inst).1 = true)
    (h2 : (depScan (TryLockTask st now task.id inst).2 task.dependencies).2 = true) :
    (executeTask st now inst task env).2.createCalls.length = 1 ∧
    ((executeTask st now inst task env).2.updateCalls.map Task.status =
      if env.createFails then []
      else (executeTask st now inst task env).2.createCalls.map TaskResult.status) ∧
    (env.createFails = false →
      (executeTask st now inst task env).1.results.length = st.results.length + 1) ∧
    (env.createFails = false → env.updateFails = false →
      ∀ u ∈ (executeTask st now inst task env).1.tasks, u.id = task.id →
        (executeTask st now inst task env).2.createCalls.map TaskResult.status =
          [u.status]) ∧
    (ExecuteTaskNow st inst task env).2.1.createCalls.length = 1 ∧
    ((ExecuteTaskNow st inst task env).2.1.updateCalls.map Task.status =
      if env.createFails then []
      else (ExecuteTaskNow st inst task env).2.1.createCalls.map TaskResult.status) := by
  unfold executeTask executeLocked ExecuteTaskNow
  dsimp only
  rw [h1, if_pos rfl]
  rw [if_neg (by simp [h2])]
  rw [workerExecuteTask_err]
  dsimp only
  cases hc : env.createFails with
  | true =>
    simp only [if_pos rfl]
    refine ⟨rfl, rfl, ?_, ?_, rfl, rfl⟩
    · intro hfalse
      cases hfalse
    · intro hfalse
      cases hfalse
  | false =>
    rw [if_neg Bool.false_ne_true, if_neg Bool.false_ne_true, if_neg Bool.false_ne_true]
    cases hu : env.updateFails with
    | true =>
      rw [if_pos rfl, if_pos rfl]
      refine ⟨rfl, rfl, ?_, ?_, rfl, rfl⟩
      · intro _x
        simp [ReleaseLock, AddResult, TryLockTask_results st now task.id inst]
      · intro _x hfalse
        cases hfalse
    | false =>
      rw [if_neg Bool.false_ne_true, if_neg Bool.false_ne_true]
      refine ⟨rfl, rfl, ?_, ?_, rfl, rfl⟩
      · intro _x
        simp [ReleaseLock, UpdateTaskInStore, AddResult,
              TryLockTask_results st now task.id inst]
      · intro _x _y u hu hid
        dsimp only [ReleaseLock] at hu
        have := mem_updateTaskInStore _ _ u hu hid
        rw [this]
        rfl

/-- Witness for C5: the sample task on an empty, uncontended store passes
both gates; exactly one result is recorded and the status is mirrored. -/
theorem one_result_per_execution_and_status_mirrored_witness :
    (TryLockTask sampleStore 5 sampleTask.id "A").1 = true ∧
    (depScan (TryLockTask sampleStore 5 sampleTask.id "A").2
      sampleTask.dependencies).2 = true ∧
    (executeTask sampleStore 5 "A" sampleTask sampleEnv).2.createCalls.length = 1 ∧
    (executeTask sampleStore 5 "A" sampleTask sampleEnv).1.results.length =
      sampleStore.results.length + 1 := by
  have h := one_result_per_execution_and_status_mirrored sampleStore 5 "A"
    sampleTask sampleEnv rfl rfl
  exact ⟨rfl, rfl, h.1, h.2.2.1 rfl⟩

/-- C8 (counterexample): `taskCopy := *task` is a shallow struct copy, so
the copy retains the caller's `Config.HTTP` pointer. After registration the
caller mutates the pointed-to URL in place — and the configuration the
copy resolves at the next fire has changed, refuting the claim that
mutating the caller's object cannot change what subsequent fires execute
with. -/
theorem shallow_copy_shares_http_pointee :
    resolveHTTP sampleHeap (shallowCopy sampleTaskObj) = some sampleHTTP ∧
    resolveHTTP (writeHTTPURL sampleHeap 1 "http://b") (shallowCopy sampleTaskObj) =
      some { sampleHTTP with url := "http://b" } ∧
    resolveHTTP (writeHTTPURL sampleHeap 1 "http://b") (shallowCopy sampleTaskObj) ≠
      resolveHTTP sampleHeap (shallowCopy sampleTaskObj) :=
  ⟨rfl, rfl, by decide⟩

/-- C8 (amended): `ScheduleTask` copies the task struct by value, fixing
every field of the copy — scalars and the slice/pointer fields alike — at
registration, so a heap write through an address the copy does not
reference leaves its resolved view unchanged; but the copy shares the
`Dependencies` backing array and the pointed-to HTTP config with the
caller, so in-place stores through those retained references do change the
configuration and dependency list subsequent fires resolve. -/
theorem copy_value_fields_isolated_references_shared
    (h : Heap) (t : TaskObj) (a depAddr n i w : Nat) (url : String)
    (v : HTTPTaskConfig) (xs : List Nat)
    (hhttp : t.httpRef = some a)
    (hv : lookupHTTP h.https a = some v)
    (hdep : t.dependenciesRef = some (depAddr, n))
    (hxs : lookupArray h.arrays depAddr = some xs) :
    shallowCopy t = t ∧
    (shallowCopy t).schedule = t.schedule ∧
    resolveHTTP (writeHTTPURL h a url) (shallowCopy t) = some { v with url := url } ∧
    resolveDeps (writeArrayElem h depAddr i w) (shallowCopy t) = (xs.set i w).take n ∧
    (∀ b urlB, b ≠ a →
      resolveHTTP (writeHTTPURL h b urlB) (shallowCopy t) =
        resolveHTTP h (shallowCopy t)) := by
  refine ⟨rfl, rfl, ?_, ?_, ?_⟩
  · simp only [resolveHTTP, shallowCopy, writeHTTPURL, hhttp]
    exact lookupHTTP_write_self h.https a url v hv
  · simp only [resolveDeps, shallowCopy, writeArrayElem, hdep]
    rw [lookupArray_write_self h.arrays depAddr i w xs hxs]
  · intro b urlB hba
    simp only [resolveHTTP, shallowCopy, writeHTTPURL, hhttp]
    exact lookupHTTP_write_other h.https b a urlB (fun hh => hba hh.symm)

/-- Witness for C8's amended theorem at the sample heap and task object. -/
theorem copy_value_fields_isolated_references_shared_witness :
    sampleTaskObj.httpRef = some 1 ∧
    lookupHTTP sampleHeap.https 1 = some sampleHTTP ∧
    sampleTaskObj.dependenciesRef = some (0, 1) ∧
    lookupArray sampleHeap.arrays 0 = some [7] ∧
    shallowCopy sampleTaskObj = sampleTaskObj ∧
    resolveHTTP (writeHTTPURL sampleHeap 1 "http://b") (shallowCopy sampleTaskObj) =
      some { sampleHTTP with url := "http://b" } ∧
    resolveDeps (writeArrayElem sampleHeap 0 0 8) (shallowCopy sampleTaskObj) =
      ([7].set 0 8).take 1 ∧
    resolveHTTP (writeHTTPURL sampleHeap 5 "http://x") (shallowCopy sampleTaskObj) =
      resolveHTTP sampleHeap (shallowCopy sampleTaskObj) := by
  have h := copy_value_fields_isolated_references_shared sampleHeap sampleTaskObj
    1 0 1 0 8 "http://b" sampleHTTP [7] rfl rfl rfl rfl
  exact ⟨rfl, rfl, rfl, rfl, h.1, h.2.2.1, h.2.2.2.1,
         h.2.2.2.2 5 "http://x" (by decide)⟩

/-- C7: on a well-formed registry, `ScheduleTask` removes the prior
trigger before adding the new one: well-formedness is preserved, every
task-id keeps at most one cron entry, a successful call leaves exactly
one cron entry for the scheduled task-id, and the previously registered
entry id is gone from the cron table. -/
theorem scheduleTask_replaces_prior_trigger (s : SchedState) (task : Task)
    (parseOk : Bool) (hwf : SchedWF s) :
    SchedWF (ScheduleTask s task parseOk).1 ∧
    (∀ id, cronCountFor (ScheduleTask s task parseOk).1 id ≤ 1) ∧
    ((ScheduleTask s task parseOk).2 = true →
      cronCountFor (ScheduleTask s task parseOk).1 task.id = 1) ∧
    (∀ eid, lookupId s.entries task.id = some eid →
      ∀ p ∈ (ScheduleTask s task parseOk).1.cronJobs, p.1 ≠ eid) := by
  obtain ⟨hd, hkey, hnext, hold⟩ := dropEntry_wf s task.id hwf
  obtain ⟨hm1, hkeys1, hvals1, hbound1⟩ := hd
  unfold ScheduleTask
  dsimp only
  cases parseOk with
  | false =>
    rw [if_neg Bool.false_ne_true]
    refine ⟨⟨hm1, hkeys1, hvals1, hbound1⟩, ?_, ?_, hold⟩
    · intro id
      rw [cron_count_eq_entries _ hm1 id]
      exact filter_key_le_one _ id hkeys1
    · intro hfalse
      cases hfalse
  | true =>
    rw [if_pos rfl]
    have hwf2 : SchedWF
        { entries := (task.id, (dropEntry s task.id).nextEntryId) ::
            (dropEntry s task.id).entries
          cronJobs := ((dropEntry s task.id).nextEntryId, task.id) ::
            (dropEntry s task.id).cronJobs
          nextEntryId := (dropEntry s task.id).nextEntryId + 1 } := by
      refine ⟨?_, ?_, ?_, ?_⟩
      · dsimp only
        rw [List.map_cons, hm1]
      · dsimp only
        rw [List.map_cons, List.nodup_cons]
        exact ⟨hkey, hkeys1⟩
      · dsimp only
        rw [List.map_cons, List.nodup_cons]
        exact ⟨fresh_value_not_mem _ _ hbound1, hvals1⟩
      · intro e he
        rcases List.mem_cons.mp he with he | he
        · rw [he]
          exact Nat.lt_succ_self _
        · exact Nat.lt_succ_of_lt (hbound1 e he)
    refine ⟨hwf2, ?_, ?_, ?_⟩
    · intro id
      rw [cron_count_eq_entries _ hwf2.1 id]
      exact filter_key_le_one _ id hwf2.2.1
    · intro _htrue
      unfold cronCountFor
      dsimp only
      rw [List.filter_cons, if_pos (by simp)]
      have hzero : (dropEntry s task.id).cronJobs.filter
          (fun e => e.2 = task.id) = [] := by
        have hlen := cron_count_eq_entries _ hm1 task.id
        rw [filter_key_eq_nil _ _ hkey] at hlen
        unfold cronCountFor at hlen
        exact List.length_eq_zero.mp hlen
      rw [hzero]
      rfl
    · intro eid hlk p hp
      rcases List.mem_cons.mp hp with hp | hp
      · rw [hp]
        dsimp only
        rw [hnext]
        have hlt : eid < s.nextEntryId :=
          hwf.2.2.2 (task.id, eid) (lookupId_mem _ _ _ hlk)
        exact Nat.ne_of_gt hlt
      · exact hold eid hlk p hp

/-- Witness for C7: re-registering task 9, already present with entry 0,
on a well-formed registry. -/
theorem scheduleTask_replaces_prior_trigger_witness :
    SchedWF sampleSched ∧
    SchedWF (ScheduleTask sampleSched sampleTask true).1 ∧
    cronCountFor (ScheduleTask sampleSched sampleTask true).1 sampleTask.id = 1 ∧
    (∀ p ∈ (ScheduleTask sampleSched sampleTask true).1.cronJobs, p.1 ≠ 0) := by
  have hwf : SchedWF sampleSched := by
    refine ⟨rfl, ?_, ?_, ?_⟩ <;> decide
  have h := scheduleTask_replaces_prior_trigger sampleSched sampleTask true hwf
  exact ⟨hwf, h.1, h.2.2.1 rfl, h.2.2.2 0 rfl⟩

/-- C1: the lease operations each preserve "at most one lease row per
task-id" (hence at most one unexpired lease per task-id at any instant),
and when N peers race the same fire of a dependency-free task — every
acquire attempt serialized by the store before any release — exactly one
peer's trace shows the lease acquired, exactly one `CreateTaskResult` call
is made across all peers, exactly one result row is added to the shared
store, and every losing peer's `executeTask` returns having called
neither `CreateTaskResult` nor `UpdateTask`. -/
theorem lease_exclusivity_and_single_execution :
    (∀ st : StoreState, ∀ now taskId : Nat, ∀ inst : String, ∀ tid : Nat,
      leaseRowsFor st tid ≤ 1 →
      leaseRowsFor (TryLockTask st now taskId inst).2 tid ≤ 1 ∧
      leaseRowsFor (RefreshLock st now taskId inst).2 tid ≤ 1 ∧
      leaseRowsFor (ReleaseLock st taskId inst) tid ≤ 1) ∧
    (∀ st : StoreState, ∀ now tid : Nat,
      leaseRowsFor st tid ≤ 1 → unexpiredLeasesFor st now tid ≤ 1) ∧
    (∀ st : StoreState, ∀ now : Nat, ∀ task : Task,
      ∀ peers : List (String × ExecEnv), ∀ q : String × ExecEnv,
      ∀ qs : List (String × ExecEnv),
      peers = q :: qs →
      hasUnexpiredLease st now task.id = false →
      task.dependencies = [] →
      (∀ p ∈ peers, (p : String × ExecEnv).2.createFails = false) →
      (raceFire st now task peers).2.countP (fun tr => tr.acquired) = 1 ∧
      ((raceFire st now task peers).2.map (fun tr => tr.createCalls.length)).sum = 1 ∧
      (raceFire st now task peers).1.results.length = st.results.length + 1 ∧
      (∀ tr ∈ (raceFire st now task peers).2, tr.acquired = false →
        tr.createCalls = [] ∧ tr.updateCalls = [])) := by
  refine ⟨?_, ?_, ?_⟩
  · intro st now taskId inst tid h
    refine ⟨tryLock_rows st now taskId inst tid h, ?_,
            release_rows st taskId inst tid h⟩
    rw [refresh_rows]
    exact h
  · intro st now tid h
    exact Nat.le_trans (unexpired_le_rows st now tid) h
  · intro st now task peers q qs hp hfree hdeps hcf
    subst hp
    obtain ⟨hw1, hw2, hw3⟩ := tryLock_of_free st now task.id q.1 hfree
    obtain ⟨he1, he2, he3⟩ :=
      executeLocked_noDeps (TryLockTask st now task.id q.1).2 q.1 task q.2
        hdeps (hcf q (List.mem_cons_self q qs))
    have hrf : raceFire st now task (q :: qs) =
        ((executeLocked (TryLockTask st now task.id q.1).2 q.1 task q.2).1,
         (executeLocked (TryLockTask st now task.id q.1).2 q.1 task q.2).2 ::
           qs.map (fun _ => skipTrace)) := by
      unfold raceFire
      rw [List.map_cons]
      unfold raceAcquire
      dsimp only
      rw [raceAcquire_locked _ now task.id _ hw2]
      dsimp only
      rw [hw1]
      rw [List.zip_cons_cons, zip_map_false]
      unfold runWinners
      rw [if_pos rfl]
      dsimp only
      rw [runWinners_all_false]
    rw [hrf]
    refine ⟨?_, ?_, ?_, ?_⟩
    · rw [List.countP_cons, skips_countP, he1]
      rfl
    · rw [List.map_cons, List.sum_cons, skips_sum, he2]
    · rw [he3, hw3]
    · intro tr htr hacq
      rcases List.mem_cons.mp htr with htr | htr
      · rw [htr] at hacq
        rw [he1] at hacq
        cases hacq
      · rw [skips_mem qs tr htr]
        exact ⟨rfl, rfl⟩

/-- Witness for C1: two peers race the sample task's fire on a store with
no leases; exactly one result is recorded. -/
theorem lease_exclusivity_and_single_execution_witness :
    leaseRowsFor sampleStore 9 ≤ 1 ∧
    leaseRowsFor (TryLockTask sampleStore 5 9 "A").2 9 ≤ 1 ∧
    unexpiredLeasesFor sampleStore 5 9 ≤ 1 ∧
    (raceFire sampleStore 5 sampleTask
      [("A", sampleEnv), ("B", sampleEnv)]).2.countP (fun tr => tr.acquired) = 1 ∧
    ((raceFire sampleStore 5 sampleTask
      [("A", sampleEnv), ("B", sampleEnv)]).2.map
        (fun tr => tr.createCalls.length)).sum = 1 ∧
    (raceFire sampleStore 5 sampleTask
      [("A", sampleEnv), ("B", sampleEnv)]).1.results.length =
      sampleStore.results.length + 1 := by
  have h := lease_exclusivity_and_single_execution
  have hrace := h.2.2 sampleStore 5 sampleTask
    [("A", sampleEnv), ("B", sampleEnv)] ("A", sampleEnv) [("B", sampleEnv)]
    rfl rfl rfl
    (by
      intro p hp
      rcases List.mem_cons.mp hp with h1 | h1
      · rw [h1]
        rfl
      · rcases List.mem_cons.mp h1 with h2 | h2
        · rw [h2]
          rfl
        · cases h2)
  exact ⟨by decide,
         (h.1 sampleStore 5 9 "A" 9 (by decide)).1,
         h.2.1 sampleStore 5 9 (by decide),
         hrace.1, hrace.2.1, hrace.2.2.1⟩

end TaskRunner
